import Mathlib

/-!
Verification of the OpenChat.Native MLS group core (`src/OpenChat.Native/src/group.rs`).

The development shallowly embeds the self-contained group state machine:
bytes are `List Nat` (each entry a `u8` value), `u64` arithmetic is `Nat`
arithmetic reduced modulo `2 ^ 64` where the Rust code can overflow
(release-profile wrapping semantics), strings stay `String`, and fallible
operations return `Except MarmotError`.  The `serde_json` byte layer of the
Rust code is modelled at the JSON-value level: serialization produces a
`Json` tree mirroring serde's field layout and deserialization consumes one,
since the byte rendering of a JSON document is an external library concern
and round-trips exactly.
-/

namespace OpenChat

/-! ## SHA-256 (the `sha2` crate primitive used by the key schedule) -/

/-- 2 ^ 32, the modulus for 32-bit words. -/
def w32 : Nat := 4294967296

/-- Rotate a 32-bit word right by `n`. -/
def rotr32 (n x : Nat) : Nat := ((x >>> n) ||| (x <<< (32 - n))) % w32

/-- Bitwise complement of a 32-bit word. -/
def not32 (x : Nat) : Nat := x ^^^ 4294967295

def bigSigma0 (x : Nat) : Nat := rotr32 2 x ^^^ rotr32 13 x ^^^ rotr32 22 x

def bigSigma1 (x : Nat) : Nat := rotr32 6 x ^^^ rotr32 11 x ^^^ rotr32 25 x

def smallSigma0 (x : Nat) : Nat := rotr32 7 x ^^^ rotr32 18 x ^^^ (x >>> 3)

def smallSigma1 (x : Nat) : Nat := rotr32 17 x ^^^ rotr32 19 x ^^^ (x >>> 10)

def shaCh (x y z : Nat) : Nat := (x &&& y) ^^^ (not32 x &&& z)

def shaMaj (x y z : Nat) : Nat := (x &&& y) ^^^ (x &&& z) ^^^ (y &&& z)

/-- The 64 SHA-256 round constants, in decimal. -/
def K256 : List Nat :=
  [1116352408, 1899447441, 3049323471, 3921009573, 961987163, 1508970993,
   2453635748, 2870763221, 3624381080, 310598401, 607225278, 1426881987,
   1925078388, 2162078206, 2614888103, 3248222580, 3835390401, 4022224774,
   264347078, 604807628, 770255983, 1249150122, 1555081692, 1996064986,
   2554220882, 2821834349, 2952996808, 3210313671, 3336571891, 3584528711,
   113926993, 338241895, 666307205, 773529912, 1294757372, 1396182291,
   1695183700, 1986661051, 2177026350, 2456956037, 2730485921, 2820302411,
   3259730800, 3345764771, 3516065817, 3600352804, 4094571909, 275423344,
   430227734, 506948616, 659060556, 883997877, 958139571, 1322822218,
   1537002063, 1747873779, 1955562222, 2024104815, 2227730452, 2361852424,
   2428436474, 2756734187, 3204031479, 3329325298]

/-- Working state: the eight 32-bit hash registers. -/
structure Hash8 where
  a : Nat
  b : Nat
  c : Nat
  d : Nat
  e : Nat
  f : Nat
  g : Nat
  h : Nat
deriving DecidableEq

/-- SHA-256 initial hash value, in decimal. -/
def sha256Init : Hash8 :=
  ⟨1779033703, 3144134277, 1013904242, 2773480762,
   1359893119, 2600822924, 528734635, 1541459225⟩

/-- One compression round. -/
def shaStep (st : Hash8) (kw : Nat × Nat) : Hash8 :=
  let t1 := (st.h + bigSigma1 st.e + shaCh st.e st.f st.g + kw.1 + kw.2) % w32
  let t2 := (bigSigma0 st.a + shaMaj st.a st.b st.c) % w32
  ⟨(t1 + t2) % w32, st.a, st.b, st.c, (st.d + t1) % w32, st.e, st.f, st.g⟩

/-- Big-endian 32-bit word from four bytes of a chunk. -/
def chunkWord (c : List Nat) (i : Nat) : Nat :=
  (c.getD (4 * i) 0 * 16777216 + c.getD (4 * i + 1) 0 * 65536 +
   c.getD (4 * i + 2) 0 * 256 + c.getD (4 * i + 3) 0) % w32

/-- The first 16 words of the message schedule. -/
def chunkWords (c : List Nat) : List Nat := (List.range 16).map (chunkWord c)

/-- Extend the message schedule by `n` further words. -/
def extendWords (ws : List Nat) : Nat → List Nat
  | 0 => ws
  | n + 1 =>
    let ws2 := extendWords ws n
    let len := ws2.length
    ws2 ++ [(smallSigma1 (ws2.getD (len - 2) 0) + ws2.getD (len - 7) 0 +
             smallSigma0 (ws2.getD (len - 15) 0) + ws2.getD (len - 16) 0) % w32]

/-- Compress one 64-byte chunk into the running state. -/
def compressChunk (st : Hash8) (chunk : List Nat) : Hash8 :=
  let ws := extendWords (chunkWords chunk) 48
  let st2 := (K256.zip ws).foldl shaStep st
  ⟨(st.a + st2.a) % w32, (st.b + st2.b) % w32, (st.c + st2.c) % w32, (st.d + st2.d) % w32,
   (st.e + st2.e) % w32, (st.f + st2.f) % w32, (st.g + st2.g) % w32, (st.h + st2.h) % w32⟩

/-- Big-endian 64-bit length encoding. -/
def be64 (n : Nat) : List Nat :=
  [n >>> 56 % 256, n >>> 48 % 256, n >>> 40 % 256, n >>> 32 % 256,
   n >>> 24 % 256, n >>> 16 % 256, n >>> 8 % 256, n % 256]

/-- SHA-256 padding: append 0x80, zeros, and the bit length, to a multiple of 64 bytes. -/
def shaPad (msg : List Nat) : List Nat :=
  let len := msg.length
  let zeros := (64 - (len + 9) % 64) % 64
  msg ++ [128] ++ List.replicate zeros 0 ++ be64 (len * 8)

/-- Split a byte list into 64-byte chunks (fuel-indexed structural recursion). -/
def chunksGo : Nat → List Nat → List (List Nat)
  | 0, _ => []
  | _ + 1, [] => []
  | n + 1, b :: rest => (b :: rest).take 64 :: chunksGo n ((b :: rest).drop 64)

def chunks64 (l : List Nat) : List (List Nat) := chunksGo l.length l

/-- Serialize the final state, big-endian, one word at a time. -/
def wordBytes (x : Nat) : List Nat := [x >>> 24 % 256, x >>> 16 % 256, x >>> 8 % 256, x % 256]

def finalBytes (st : Hash8) : List Nat :=
  wordBytes st.a ++ wordBytes st.b ++ wordBytes st.c ++ wordBytes st.d ++
  wordBytes st.e ++ wordBytes st.f ++ wordBytes st.g ++ wordBytes st.h

/-- SHA-256 of a byte list. -/
def sha256 (msg : List Nat) : List Nat :=
  finalBytes ((chunks64 (shaPad msg)).foldl compressChunk sha256Init)

theorem wordBytes_length (x : Nat) : (wordBytes x).length = 4 := rfl

theorem finalBytes_length (st : Hash8) : (finalBytes st).length = 32 := by
  simp [finalBytes, wordBytes]

/-- SHA-256 always produces exactly 32 bytes. -/
theorem sha256_length (msg : List Nat) : (sha256 msg).length = 32 := by
  unfold sha256; exact finalBytes_length _

theorem wordBytes_lt (x : Nat) : ∀ b ∈ wordBytes x, b < 256 := by
  intro b hb
  simp [wordBytes] at hb
  rcases hb with h | h | h | h <;> subst h <;> exact Nat.mod_lt _ (by decide)

theorem finalBytes_lt (st : Hash8) : ∀ b ∈ finalBytes st, b < 256 := by
  intro b hb
  simp only [finalBytes, List.mem_append] at hb
  rcases hb with ((((((h | h) | h) | h) | h) | h) | h) | h <;> exact wordBytes_lt _ _ h

/-- Every SHA-256 output entry is a byte value. -/
theorem sha256_lt (msg : List Nat) : ∀ b ∈ sha256 msg, b < 256 := by
  unfold sha256; exact finalBytes_lt _

/-! ## Key schedule (`derive_next_secret`, `derive_application_secret`) -/

/-- 2 ^ 64, the modulus for `u64` values. -/
def w64 : Nat := 18446744073709551616

/-- The ASCII bytes of the domain-separation label `mls_next_secret`. -/
def nextSecretLabel : List Nat :=
  [109, 108, 115, 95, 110, 101, 120, 116, 95, 115, 101, 99, 114, 101, 116]

/-- The ASCII bytes of the domain-separation label `mls_application_secret`. -/
def applicationSecretLabel : List Nat :=
  [109, 108, 115, 95, 97, 112, 112, 108, 105, 99, 97, 116, 105, 111, 110, 95,
   115, 101, 99, 114, 101, 116]

/-- `u64::to_le_bytes`: eight little-endian bytes. -/
def u64le (n : Nat) : List Nat :=
  [n % 256, n >>> 8 % 256, n >>> 16 % 256, n >>> 24 % 256,
   n >>> 32 % 256, n >>> 40 % 256, n >>> 48 % 256, n >>> 56 % 256]

/-- `derive_next_secret`: hash of the current secret and the next-secret label. -/
def deriveNextSecret (currentSecret : List Nat) : List Nat :=
  sha256 (currentSecret ++ nextSecretLabel)

/-- `derive_application_secret`: hash of the group secret, the application label,
and the epoch as little-endian bytes. -/
def deriveApplicationSecret (groupSecret : List Nat) (epoch : Nat) : List Nat :=
  sha256 (groupSecret ++ applicationSecretLabel ++ u64le epoch)

theorem deriveNextSecret_length (s : List Nat) : (deriveNextSecret s).length = 32 :=
  sha256_length _

theorem deriveApplicationSecret_length (s : List Nat) (e : Nat) :
    (deriveApplicationSecret s e).length = 32 :=
  sha256_length _

/-! ## Data model -/

/-- The error enumeration of `error.rs` (`MarmotError`). -/
inductive MarmotError where
  | InvalidKey (msg : String)
  | GroupNotFound (msg : String)
  | MlsError (msg : String)
  | SerializationError (msg : String)
  | CryptoError (msg : String)
  | InvalidState (msg : String)
  | MemberNotFound (msg : String)
  | AlreadyMember
  | NotMember
  | Internal (msg : String)
deriving DecidableEq

/-- The group state (`MlsGroup` in `group.rs`). -/
structure MlsGroup where
  group_id : List Nat
  name : String
  epoch : Nat
  members : List String
  group_secret : List Nat
  application_secret : List Nat
deriving DecidableEq

/-- The Welcome transfer artifact (`WelcomeData`).  Its struct definition lives in
the repository's client module; the fields and their order are fixed by the
construction in `MlsGroup::add_member` and by the spec's artifact table. -/
structure WelcomeData where
  group_id : List Nat
  group_name : String
  epoch : Nat
  members : List String
  group_secrets : List Nat
  encrypted_group_info : List Nat
deriving DecidableEq

/-- The Commit transfer artifact (`CommitData`). -/
structure CommitData where
  group_id : List Nat
  epoch : Nat
  removed_members : List String
  added_members : List String
deriving DecidableEq

/-- The encrypted message envelope (`EncryptedMessage`). -/
structure EncryptedMessage where
  sender_public_key : String
  epoch : Nat
  ciphertext : List Nat
deriving DecidableEq

/-- Rust typing side conditions of an `MlsGroup` value: the epoch fits in a
`u64` and the three byte vectors hold `u8` values.  Every group the Rust
program manipulates satisfies this by construction of its types. -/
def WFGroup (g : MlsGroup) : Prop :=
  g.epoch < w64 ∧ (∀ b ∈ g.group_id, b < 256) ∧
  (∀ b ∈ g.group_secret, b < 256) ∧ (∀ b ∈ g.application_secret, b < 256)

instance (g : MlsGroup) : Decidable (WFGroup g) := by
  unfold WFGroup; infer_instance

/-- Rust typing side conditions of a `CommitData` value. -/
def WFCommit (c : CommitData) : Prop :=
  c.epoch < w64 ∧ ∀ b ∈ c.group_id, b < 256

instance (c : CommitData) : Decidable (WFCommit c) := by
  unfold WFCommit; infer_instance

/-! ## Group lifecycle -/

/-- `MlsGroup::create`.  The two fresh random 32-byte strings that `OsRng`
produces are passed in as arguments (`groupId`, `groupSecret`); the Rust
function has no failure path (it always returns `Ok`). -/
def createGroup (name : String) (creatorPublicKey : String)
    (groupId groupSecret : List Nat) : MlsGroup :=
  { group_id := groupId
    name := name
    epoch := 0
    members := [creatorPublicKey]
    group_secret := groupSecret
    application_secret := deriveApplicationSecret groupSecret 0 }

/-- `MlsGroup::from_welcome`. -/
def fromWelcome (welcome : WelcomeData) (joinerPublicKey : String) :
    Except MarmotError MlsGroup :=
  if welcome.members.contains joinerPublicKey then
    .ok
      { group_id := welcome.group_id
        name := welcome.group_name
        epoch := welcome.epoch
        members := welcome.members
        group_secret := welcome.group_secrets
        application_secret := deriveApplicationSecret welcome.group_secrets welcome.epoch }
  else
    .error .NotMember

/-! ## Membership and commit protocol

Each mutating operation takes `&mut self` in Rust; it is modelled as a
function returning the post-call state together with the `Result` value.
The `u64` epoch increment `self.epoch += 1` is `(epoch + 1) % w64`
(wrapping, the release-profile semantics).  `serde_json::to_vec` on the
produced artifact cannot fail for these field types, so the trailing `?`
in the Rust code is dead and the artifact is returned directly. -/

/-- `MlsGroup::add_member`. -/
def addMember (g : MlsGroup) (memberPublicKey : String) :
    MlsGroup × Except MarmotError WelcomeData :=
  if g.members.contains memberPublicKey then
    (g, .error .AlreadyMember)
  else
    let members2 := g.members ++ [memberPublicKey]
    let epoch2 := (g.epoch + 1) % w64
    let secret2 := deriveNextSecret g.group_secret
    let g2 : MlsGroup :=
      { group_id := g.group_id
        name := g.name
        epoch := epoch2
        members := members2
        group_secret := secret2
        application_secret := deriveApplicationSecret secret2 epoch2 }
    (g2,
     .ok
       { group_id := g2.group_id
         group_name := g2.name
         epoch := g2.epoch
         members := g2.members
         group_secrets := g2.group_secret
         encrypted_group_info := [] })

/-- `MlsGroup::remove_member`.  Rust finds the first position whose entry
equals the key and removes it. -/
def removeMember (g : MlsGroup) (memberPublicKey : String) :
    MlsGroup × Except MarmotError CommitData :=
  match g.members.findIdx? (fun m => m == memberPublicKey) with
  | none => (g, .error (.MemberNotFound memberPublicKey))
  | some pos =>
    let members2 := g.members.eraseIdx pos
    let epoch2 := (g.epoch + 1) % w64
    let secret2 := deriveNextSecret g.group_secret
    let g2 : MlsGroup :=
      { group_id := g.group_id
        name := g.name
        epoch := epoch2
        members := members2
        group_secret := secret2
        application_secret := deriveApplicationSecret secret2 epoch2 }
    (g2,
     .ok
       { group_id := g2.group_id
         epoch := g2.epoch
         removed_members := [memberPublicKey]
         added_members := [] })

/-- `MlsGroup::update_keys`. -/
def updateKeys (g : MlsGroup) : MlsGroup × Except MarmotError CommitData :=
  let epoch2 := (g.epoch + 1) % w64
  let secret2 := deriveNextSecret g.group_secret
  let g2 : MlsGroup :=
    { group_id := g.group_id
      name := g.name
      epoch := epoch2
      members := g.members
      group_secret := secret2
      application_secret := deriveApplicationSecret secret2 epoch2 }
  (g2,
   .ok
     { group_id := g2.group_id
       epoch := g2.epoch
       removed_members := []
       added_members := [] })

/-- The removal loop of `process_commit`: for each listed member,
`members.retain(|m| m != member)`. -/
def removeAll (l : List String) (removed : List String) : List String :=
  removed.foldl (fun acc r => acc.filter (fun m => m != r)) l

/-- The addition loop of `process_commit`: push each listed member not
already present. -/
def addAll (l : List String) (added : List String) : List String :=
  added.foldl (fun acc a => if acc.contains a then acc else acc ++ [a]) l

/-- The body of `MlsGroup::process_commit` after deserialization of the
commit bytes. -/
def processCommitData (g : MlsGroup) (c : CommitData) :
    MlsGroup × Except MarmotError Unit :=
  if c.group_id ≠ g.group_id then
    (g, .error (.InvalidState "Group ID mismatch"))
  else if c.epoch ≠ (g.epoch + 1) % w64 then
    (g, .error (.InvalidState ("Unexpected epoch: expected " ++
       toString ((g.epoch + 1) % w64) ++ ", got " ++ toString c.epoch)))
  else
    let members2 := addAll (removeAll g.members c.removed_members) c.added_members
    let epoch2 := c.epoch
    let secret2 := deriveNextSecret g.group_secret
    (⟨g.group_id, g.name, epoch2, members2, secret2,
      deriveApplicationSecret secret2 epoch2⟩, .ok ())

/-! ## Messaging

Plaintexts are the UTF-8 byte sequences of Rust `&str` values; a `List Nat`
paired with the `validUtf8` predicate below is that type.  The keystream
index `i % application_secret.len()` panics when the secret is empty and at
least one byte is processed; a panic is modelled as `none`. -/

/-- The XOR loop of `encrypt_message`/`decrypt_message`, with running index. -/
def xorStream (secret : List Nat) : Nat → List Nat → List Nat
  | _, [] => []
  | i, b :: rest => (b ^^^ secret.getD (i % secret.length) 0) :: xorStream secret (i + 1) rest

/-- WHATWG/RFC 3629 UTF-8 validity of a byte sequence, the acceptance
condition of `String::from_utf8`. -/
def validUtf8 : List Nat → Bool
  | [] => true
  | b :: rest =>
    if b < 128 then validUtf8 rest
    else if 194 ≤ b && b ≤ 223 then
      match rest with
      | c1 :: rest2 => 128 ≤ c1 && c1 ≤ 191 && validUtf8 rest2
      | [] => false
    else if b == 224 then
      match rest with
      | c1 :: c2 :: rest2 =>
        160 ≤ c1 && c1 ≤ 191 && (128 ≤ c2 && c2 ≤ 191) && validUtf8 rest2
      | _ => false
    else if 225 ≤ b && b ≤ 236 then
      match rest with
      | c1 :: c2 :: rest2 =>
        128 ≤ c1 && c1 ≤ 191 && (128 ≤ c2 && c2 ≤ 191) && validUtf8 rest2
      | _ => false
    else if b == 237 then
      match rest with
      | c1 :: c2 :: rest2 =>
        128 ≤ c1 && c1 ≤ 159 && (128 ≤ c2 && c2 ≤ 191) && validUtf8 rest2
      | _ => false
    else if 238 ≤ b && b ≤ 239 then
      match rest with
      | c1 :: c2 :: rest2 =>
        128 ≤ c1 && c1 ≤ 191 && (128 ≤ c2 && c2 ≤ 191) && validUtf8 rest2
      | _ => false
    else if b == 240 then
      match rest with
      | c1 :: c2 :: c3 :: rest2 =>
        144 ≤ c1 && c1 ≤ 191 && (128 ≤ c2 && c2 ≤ 191) && (128 ≤ c3 && c3 ≤ 191) &&
          validUtf8 rest2
      | _ => false
    else if 241 ≤ b && b ≤ 243 then
      match rest with
      | c1 :: c2 :: c3 :: rest2 =>
        128 ≤ c1 && c1 ≤ 191 && (128 ≤ c2 && c2 ≤ 191) && (128 ≤ c3 && c3 ≤ 191) &&
          validUtf8 rest2
      | _ => false
    else if b == 244 then
      match rest with
      | c1 :: c2 :: c3 :: rest2 =>
        128 ≤ c1 && c1 ≤ 143 && (128 ≤ c2 && c2 ≤ 191) && (128 ≤ c3 && c3 ≤ 191) &&
          validUtf8 rest2
      | _ => false
    else false

/-- `MlsGroup::encrypt_message`.  `none` models the index-modulo-zero panic.
The envelope is returned structurally; its `serde_json` byte rendering
round-trips exactly. -/
def encryptMessage (g : MlsGroup) (plaintext : List Nat) (senderPublicKey : String) :
    Option (Except MarmotError EncryptedMessage) :=
  if ¬ g.members.contains senderPublicKey then
    some (.error .NotMember)
  else if plaintext ≠ [] ∧ g.application_secret = [] then
    none
  else
    some (.ok
      { sender_public_key := senderPublicKey
        epoch := g.epoch
        ciphertext := xorStream g.application_secret 0 plaintext })

/-- `MlsGroup::decrypt_message` on a parsed envelope. -/
def decryptMessage (g : MlsGroup) (message : EncryptedMessage) :
    Option (Except MarmotError (String × List Nat × Nat)) :=
  if ¬ g.members.contains message.sender_public_key then
    some (.error .NotMember)
  else if message.ciphertext ≠ [] ∧ g.application_secret = [] then
    none
  else
    let plaintextBytes := xorStream g.application_secret 0 message.ciphertext
    if validUtf8 plaintextBytes then
      some (.ok (message.sender_public_key, plaintextBytes, message.epoch))
    else
      some (.error (.SerializationError "invalid utf-8 sequence"))

/-! ## JSON values and the serde codecs

`serde_json::to_vec` / `from_slice` are modelled at the JSON-value level:
a `Json` tree stands for the byte rendering of the document, which the
external library reproduces and parses exactly.  Numbers are restricted to
the non-negative integers that the serialized structs can contain;
deserialization enforces the `u8` and `u64` range checks that serde
performs, ignores unknown object fields and requires every declared field,
as serde does for these derive structs.  The many distinct serde error
messages are collapsed into one per codec; only the error kind
(`SerializationError`, via the `From<serde_json::Error>` impl) matters. -/

inductive Json where
  | null
  | bool (b : Bool)
  | num (n : Nat)
  | str (s : String)
  | arr (items : List Json)
  | obj (fields : List (String × Json))

/-- Decode a JSON array's items as `u8` values (serde `Vec<u8>`). -/
def jsonBytes : List Json → Option (List Nat)
  | [] => some []
  | .num n :: rest => if n < 256 then (jsonBytes rest).map (n :: ·) else none
  | _ => none

/-- Decode a JSON array's items as strings (serde `Vec<String>`). -/
def jsonStrings : List Json → Option (List String)
  | [] => some []
  | .str s :: rest => (jsonStrings rest).map (s :: ·)
  | _ => none

/-- `MlsGroup::export_state`: serde serialization of the full entity, fields
in declaration order, private secrets included. -/
def exportState (g : MlsGroup) : Json :=
  .obj
    [("group_id", .arr (g.group_id.map .num)),
     ("name", .str g.name),
     ("epoch", .num g.epoch),
     ("members", .arr (g.members.map .str)),
     ("group_secret", .arr (g.group_secret.map .num)),
     ("application_secret", .arr (g.application_secret.map .num))]

/-- The deserialization underlying `MlsGroup::import_state`. -/
def importStateAux (j : Json) : Option MlsGroup :=
  match j with
  | .obj fields =>
    match fields.lookup "group_id", fields.lookup "name", fields.lookup "epoch",
        fields.lookup "members", fields.lookup "group_secret",
        fields.lookup "application_secret" with
    | some (.arr gidJ), some (.str name), some (.num epoch), some (.arr memJ),
        some (.arr gsJ), some (.arr asJ) =>
      match jsonBytes gidJ, jsonStrings memJ, jsonBytes gsJ, jsonBytes asJ with
      | some gid, some members, some gs, some appSecret =>
        if epoch < w64 then
          some ⟨gid, name, epoch, members, gs, appSecret⟩
        else none
      | _, _, _, _ => none
    | _, _, _, _, _, _ => none
  | _ => none

/-- `MlsGroup::import_state`: every failure surfaces as the
`SerializationError` kind via `From<serde_json::Error>`. -/
def importState (j : Json) : Except MarmotError MlsGroup :=
  match importStateAux j with
  | some g => .ok g
  | none => .error (.SerializationError "invalid group state")

/-- The serde serialization of a `CommitData` (the `to_vec` calls in
`remove_member` / `update_keys`). -/
def encodeCommitData (c : CommitData) : Json :=
  .obj
    [("group_id", .arr (c.group_id.map .num)),
     ("epoch", .num c.epoch),
     ("removed_members", .arr (c.removed_members.map .str)),
     ("added_members", .arr (c.added_members.map .str))]

/-- The deserialization of commit bytes at the top of `process_commit`. -/
def decodeCommitData (j : Json) : Option CommitData :=
  match j with
  | .obj fields =>
    match fields.lookup "group_id", fields.lookup "epoch",
        fields.lookup "removed_members", fields.lookup "added_members" with
    | some (.arr gidJ), some (.num epoch), some (.arr remJ), some (.arr addJ) =>
      match jsonBytes gidJ, jsonStrings remJ, jsonStrings addJ with
      | some gid, some removed, some added =>
        if epoch < w64 then some ⟨gid, epoch, removed, added⟩ else none
      | _, _, _ => none
    | _, _, _, _ => none
  | _ => none

/-- `MlsGroup::process_commit` on serialized commit data. -/
def processCommit (g : MlsGroup) (commitData : Json) :
    MlsGroup × Except MarmotError Unit :=
  match decodeCommitData commitData with
  | none => (g, .error (.SerializationError "invalid commit"))
  | some c => processCommitData g c

/-! ### Sanity checks of the embedding on the two-party scenario of §8 -/

example :
    let g := createGroup "Test" "A" (List.replicate 32 1) (List.replicate 32 2)
    let p := addMember g "B"
    p.1.epoch = 1 ∧ p.1.members = ["A", "B"] ∧ p.2.isOk = true := by decide

example : sha256 [] = [227, 176, 196, 66, 152, 252, 28, 20, 154, 251, 244, 200,
    153, 111, 185, 36, 39, 174, 65, 228, 100, 155, 147, 76, 164, 149, 153, 27,
    120, 82, 184, 85] := by decide

example : sha256 [97, 98, 99] = [186, 120, 22, 191, 143, 1, 207, 234, 65, 65,
    64, 222, 93, 174, 34, 35, 176, 3, 97, 163, 150, 23, 122, 156, 180, 16, 255,
    97, 242, 0, 21, 173] := by decide

/-! ## Helper lemmas -/

theorem jsonBytes_map (l : List Nat) (h : ∀ b ∈ l, b < 256) :
    jsonBytes (l.map Json.num) = some l := by
  induction l with
  | nil => rfl
  | cons b rest ih =>
    have hb : b < 256 := h b (by simp)
    have hr := ih (fun x hx => h x (by simp [hx]))
    simp [jsonBytes, hb, hr]

theorem jsonStrings_map (l : List String) : jsonStrings (l.map Json.str) = some l := by
  induction l with
  | nil => rfl
  | cons s rest ih => simp [jsonStrings, ih]

/-- Export followed by the import deserializer reproduces the group. -/
theorem importStateAux_export (g : MlsGroup) (h : WFGroup g) :
    importStateAux (exportState g) = some g := by
  obtain ⟨he, hgid, hgs, has⟩ := h
  show (match jsonBytes (g.group_id.map .num), jsonStrings (g.members.map .str),
      jsonBytes (g.group_secret.map .num), jsonBytes (g.application_secret.map .num) with
    | some gid, some members, some gs, some appSecret =>
      if g.epoch < w64 then
        some (⟨gid, g.name, g.epoch, members, gs, appSecret⟩ : MlsGroup)
      else none
    | _, _, _, _ => none) = some g
  rw [jsonBytes_map _ hgid, jsonStrings_map, jsonBytes_map _ hgs, jsonBytes_map _ has]
  simp [he]

/-- Every `importState` failure is of the `SerializationError` kind. -/
theorem importState_error_kind (j : Json) :
    (∃ g, importState j = .ok g) ∨
      ∃ msg, importState j = .error (.SerializationError msg) := by
  unfold importState
  cases importStateAux j with
  | none => exact .inr ⟨"invalid group state", rfl⟩
  | some g => exact .inl ⟨g, rfl⟩

/-- Commit encoding followed by the commit deserializer reproduces the commit. -/
theorem decodeCommitData_encode (c : CommitData) (h : WFCommit c) :
    decodeCommitData (encodeCommitData c) = some c := by
  obtain ⟨he, hgid⟩ := h
  show (match jsonBytes (c.group_id.map .num), jsonStrings (c.removed_members.map .str),
      jsonStrings (c.added_members.map .str) with
    | some gid, some removed, some added =>
      if c.epoch < w64 then some (⟨gid, c.epoch, removed, added⟩ : CommitData) else none
    | _, _, _ => none) = some c
  rw [jsonBytes_map _ hgid, jsonStrings_map, jsonStrings_map]
  simp [he]

theorem xorStream_involutive (secret : List Nat) (l : List Nat) :
    ∀ i, xorStream secret i (xorStream secret i l) = l := by
  induction l with
  | nil => intro i; rfl
  | cons b rest ih =>
    intro i
    simp only [xorStream, ih]
    rw [Nat.xor_assoc, Nat.xor_self, Nat.xor_zero]

theorem mem_removeAll (m : String) (rs : List String) :
    ∀ l, m ∈ removeAll l rs ↔ m ∈ l ∧ m ∉ rs := by
  induction rs with
  | nil => intro l; simp [removeAll]
  | cons r rs ih =>
    intro l
    show m ∈ removeAll (l.filter (fun x => x != r)) rs ↔ _
    rw [ih]
    simp [List.mem_filter, bne_iff_ne, not_or]
    tauto

theorem mem_addAll (m : String) (adds : List String) :
    ∀ l, m ∈ addAll l adds ↔ m ∈ l ∨ m ∈ adds := by
  induction adds with
  | nil => intro l; simp [addAll]
  | cons a adds ih =>
    intro l
    show m ∈ addAll (if l.contains a then l else l ++ [a]) adds ↔ _
    rw [ih]
    by_cases hc : a ∈ l
    · simp [hc]
      constructor
      · tauto
      · rintro (h | rfl | h) <;> tauto
    · simp [hc]
      constructor
      · rintro ((h | rfl) | h) <;> tauto
      · rintro (h | rfl | h) <;> tauto

theorem nodup_removeAll (rs : List String) :
    ∀ l : List String, l.Nodup → (removeAll l rs).Nodup := by
  induction rs with
  | nil => intro l h; exact h
  | cons r rs ih =>
    intro l h
    exact ih _ (List.Nodup.filter _ h)

theorem nodup_addAll (adds : List String) :
    ∀ l : List String, l.Nodup → (addAll l adds).Nodup := by
  induction adds with
  | nil => intro l h; exact h
  | cons a adds ih =>
    intro l h
    refine ih _ ?_
    by_cases hc : a ∈ l
    · simp [hc, h]
    · simp [hc, List.nodup_append, h]

/-! ## Concrete fixtures

Groups at the top of the `u64` epoch range, groups with an empty
`application_secret`, and a duplicate-member Welcome.  Each fixture group is
accompanied by a serialized state showing it is obtainable through the
public `import_state` entry point (or, for the Welcome, through
`from_welcome` directly). -/

/-- Largest `u64` value. -/
def u64Max : Nat := 18446744073709551615

def gWrapC1 : MlsGroup := ⟨[1], "w1", u64Max, ["A"], [], [7]⟩

def jWrapC1 : Json :=
  .obj
    [("group_id", .arr [.num 1]), ("name", .str "w1"), ("epoch", .num u64Max),
     ("members", .arr [.str "A"]), ("group_secret", .arr []),
     ("application_secret", .arr [.num 7])]

def gWrapC2 : MlsGroup := ⟨[2], "w2", u64Max, ["A"], [], [7]⟩

def jWrapC2 : Json :=
  .obj
    [("group_id", .arr [.num 2]), ("name", .str "w2"), ("epoch", .num u64Max),
     ("members", .arr [.str "A"]), ("group_secret", .arr []),
     ("application_secret", .arr [.num 7])]

/-- A commit for epoch 0, the value the wrapped `u64` comparison accepts
when the group sits at the maximal epoch. -/
def cWrapC2 : CommitData := ⟨[2], 0, [], []⟩

def gWrapC5 : MlsGroup := ⟨[5], "w5", u64Max, ["A"], [], [7]⟩

def jWrapC5 : Json :=
  .obj
    [("group_id", .arr [.num 5]), ("name", .str "w5"), ("epoch", .num u64Max),
     ("members", .arr [.str "A"]), ("group_secret", .arr []),
     ("application_secret", .arr [.num 7])]

/-- A group whose `application_secret` is the empty byte string. -/
def gEmptyC3 : MlsGroup := ⟨[3], "e3", 5, ["A"], [9], []⟩

def jEmptyC3 : Json :=
  .obj
    [("group_id", .arr [.num 3]), ("name", .str "e3"), ("epoch", .num 5),
     ("members", .arr [.str "A"]), ("group_secret", .arr [.num 9]),
     ("application_secret", .arr [])]

/-- A group whose stored `application_secret` is not the derivation of its
`group_secret`/`epoch` pair. -/
def gStaleC7 : MlsGroup := ⟨[4], "s4", 0, ["A"], [1], []⟩

def jStaleC7 : Json :=
  .obj
    [("group_id", .arr [.num 4]), ("name", .str "s4"), ("epoch", .num 0),
     ("members", .arr [.str "A"]), ("group_secret", .arr [.num 1]),
     ("application_secret", .arr [])]

/-- A Welcome listing the same identity twice. -/
def wDupC8 : WelcomeData := ⟨[8], "d8", 1, ["A", "A"], [], []⟩

def gEmptyC10 : MlsGroup := ⟨[6], "e6", 2, ["A"], [8], []⟩

def jEmptyC10 : Json :=
  .obj
    [("group_id", .arr [.num 6]), ("name", .str "e6"), ("epoch", .num 2),
     ("members", .arr [.str "A"]), ("group_secret", .arr [.num 8]),
     ("application_secret", .arr [])]

/-- A small ordinary group used by witnesses. -/
def gBase : MlsGroup := ⟨[1, 2], "base", 0, ["A"], [], deriveApplicationSecret [] 0⟩

/-! ## Claim C1 -/

/-- Claim C1 (amended): for each mutating operation (`add_member`,
`remove_member`, `update_keys`, `process_commit`), success sets the epoch to
`(epoch + 1) mod 2 ^ 64` (the wrapping `u64` increment), and an error return
leaves every observable field of the group unchanged. -/
theorem epoch_transition_atomic (g : MlsGroup) (id : String) (j : Json) :
    ((addMember g id).2.isOk = true →
      (addMember g id).1.epoch = (g.epoch + 1) % w64) ∧
    ((addMember g id).2.isOk = false → (addMember g id).1 = g) ∧
    ((removeMember g id).2.isOk = true →
      (removeMember g id).1.epoch = (g.epoch + 1) % w64) ∧
    ((removeMember g id).2.isOk = false → (removeMember g id).1 = g) ∧
    ((updateKeys g).2.isOk = true → (updateKeys g).1.epoch = (g.epoch + 1) % w64) ∧
    ((processCommit g j).2.isOk = true →
      (processCommit g j).1.epoch = (g.epoch + 1) % w64) ∧
    ((processCommit g j).2.isOk = false → (processCommit g j).1 = g) := by
  refine ⟨?_, ?_, ?_, ?_, ?_, ?_, ?_⟩
  · intro h
    by_cases hc : id ∈ g.members
    · simp [addMember, hc, Except.isOk, Except.toBool] at h
    · simp [addMember, hc]
  · intro h
    by_cases hc : id ∈ g.members
    · simp [addMember, hc]
    · simp [addMember, hc, Except.isOk, Except.toBool] at h
  · intro h
    cases hfi : g.members.findIdx? (fun m => m == id) with
    | none => simp [removeMember, hfi, Except.isOk, Except.toBool] at h
    | some pos => simp [removeMember, hfi]
  · intro h
    cases hfi : g.members.findIdx? (fun m => m == id) with
    | none => simp [removeMember, hfi]
    | some pos => simp [removeMember, hfi, Except.isOk, Except.toBool] at h
  · intro h
    simp [updateKeys]
  · intro h
    cases hdc : decodeCommitData j with
    | none => simp [processCommit, hdc, Except.isOk, Except.toBool] at h
    | some c =>
      by_cases h1 : c.group_id ≠ g.group_id
      · simp [processCommit, processCommitData, hdc, h1, Except.isOk, Except.toBool] at h
      · by_cases h2 : c.epoch ≠ (g.epoch + 1) % w64
        · simp [processCommit, processCommitData, hdc, h1, h2, Except.isOk,
            Except.toBool] at h
        · have h2eq : c.epoch = (g.epoch + 1) % w64 := not_not.mp h2
          simp [processCommit, processCommitData, hdc, h1, h2, h2eq]
  · intro h
    cases hdc : decodeCommitData j with
    | none => simp [processCommit, hdc]
    | some c =>
      by_cases h1 : c.group_id ≠ g.group_id
      · simp [processCommit, processCommitData, hdc, h1]
      · by_cases h2 : c.epoch ≠ (g.epoch + 1) % w64
        · simp [processCommit, processCommitData, hdc, h1, h2]
        · simp [processCommit, processCommitData, hdc, h1, h2, Except.isOk,
            Except.toBool] at h

/-- Witness for C1 at concrete inputs: a successful add advances the epoch,
a failed remove and a failed commit application leave the group unchanged. -/
theorem epoch_transition_atomic_witness :
    (addMember gBase "B").1.epoch = (gBase.epoch + 1) % w64 ∧
    (removeMember gBase "Z").1 = gBase ∧
    (updateKeys gBase).1.epoch = (gBase.epoch + 1) % w64 ∧
    (processCommit gBase (.num 3)).1 = gBase :=
  ⟨(epoch_transition_atomic gBase "B" (.num 3)).1 (by decide),
   (epoch_transition_atomic gBase "Z" (.num 3)).2.2.2.1 (by decide),
   (epoch_transition_atomic gBase "B" (.num 3)).2.2.2.2.1 (by decide),
   (epoch_transition_atomic gBase "B" (.num 3)).2.2.2.2.2.2 (by decide)⟩

/-- Counterexample to C1 as stated: at the maximal `u64` epoch (a state
importable through `import_state`), `update_keys` succeeds yet the epoch
afterwards is 0, not the predecessor plus one. -/
theorem epoch_transition_counterexample :
    importState jWrapC1 = .ok gWrapC1 ∧
    (updateKeys gWrapC1).2.isOk = true ∧
    (updateKeys gWrapC1).1.epoch = 0 ∧
    gWrapC1.epoch + 1 ≠ 0 :=
  ⟨rfl, rfl, by decide, by decide⟩

/-! ## Claim C2 -/

/-- Claim C2 (amended): `process_commit` rejects a commit whose group id
differs (group unchanged, identity-mismatch error); with matching group id
it rejects any commit whose epoch is not `(epoch + 1) mod 2 ^ 64` (the
wrapping `u64` successor; group unchanged, epoch-mismatch error); otherwise
it succeeds, keeps exactly the members that survive the removal list plus
the added ones, sets the epoch to the commit's epoch, advances the secret
chain exactly once and recomputes the application secret. -/
theorem processCommit_spec (g : MlsGroup) (c : CommitData) (hwf : WFCommit c) :
    (c.group_id ≠ g.group_id →
      processCommit g (encodeCommitData c) =
        (g, .error (.InvalidState "Group ID mismatch"))) ∧
    (c.group_id = g.group_id → c.epoch ≠ (g.epoch + 1) % w64 →
      processCommit g (encodeCommitData c) =
        (g, .error (.InvalidState ("Unexpected epoch: expected " ++
          toString ((g.epoch + 1) % w64) ++ ", got " ++ toString c.epoch)))) ∧
    (c.group_id = g.group_id → c.epoch = (g.epoch + 1) % w64 →
      (processCommit g (encodeCommitData c)).2 = .ok () ∧
      (∀ m : String, m ∈ (processCommit g (encodeCommitData c)).1.members ↔
        (m ∈ g.members ∧ m ∉ c.removed_members) ∨ m ∈ c.added_members) ∧
      (processCommit g (encodeCommitData c)).1.epoch = c.epoch ∧
      (processCommit g (encodeCommitData c)).1.group_secret =
        deriveNextSecret g.group_secret ∧
      (processCommit g (encodeCommitData c)).1.application_secret =
        deriveApplicationSecret (deriveNextSecret g.group_secret) c.epoch) := by
  have hdc := decodeCommitData_encode c hwf
  refine ⟨?_, ?_, ?_⟩
  · intro h1
    simp [processCommit, hdc, processCommitData, h1]
  · intro h1 h2
    simp [processCommit, hdc, processCommitData, h1, h2]
  · intro h1 h2
    have hmem : ∀ m : String,
        m ∈ addAll (removeAll g.members c.removed_members) c.added_members ↔
          (m ∈ g.members ∧ m ∉ c.removed_members) ∨ m ∈ c.added_members := by
      intro m
      rw [mem_addAll, mem_removeAll]
    simp [processCommit, hdc, processCommitData, h1, h2, hmem]

/-- Witness for C2: a wrong group id is rejected, a skipped epoch is
rejected, and the commit for the next epoch removes and adds as described. -/
theorem processCommit_spec_witness :
    processCommit gBase (encodeCommitData ⟨[9], 1, [], []⟩) =
      (gBase, .error (.InvalidState "Group ID mismatch")) ∧
    processCommit gBase (encodeCommitData ⟨[1, 2], 7, [], []⟩) =
      (gBase, .error (.InvalidState ("Unexpected epoch: expected " ++
        toString ((gBase.epoch + 1) % w64) ++ ", got " ++ toString (7 : Nat)))) ∧
    (processCommit gBase (encodeCommitData ⟨[1, 2], 1, ["A"], ["B"]⟩)).2 = .ok () ∧
    ("B" ∈ (processCommit gBase (encodeCommitData ⟨[1, 2], 1, ["A"], ["B"]⟩)).1.members ↔
      ("B" ∈ gBase.members ∧ "B" ∉ ["A"]) ∨ "B" ∈ ["B"]) :=
  ⟨(processCommit_spec gBase ⟨[9], 1, [], []⟩ (by decide)).1 (by decide),
   (processCommit_spec gBase ⟨[1, 2], 7, [], []⟩ (by decide)).2.1 (by decide) (by decide),
   ((processCommit_spec gBase ⟨[1, 2], 1, ["A"], ["B"]⟩ (by decide)).2.2
     (by decide) (by decide)).1,
   ((processCommit_spec gBase ⟨[1, 2], 1, ["A"], ["B"]⟩ (by decide)).2.2
     (by decide) (by decide)).2.1 "B"⟩

/-- Counterexample to C2 as stated: at the maximal `u64` epoch, a commit for
epoch 0 is not rejected — the wrapped comparison accepts it — although its
epoch is not the group's epoch plus one. -/
theorem processCommit_counterexample :
    importState jWrapC2 = .ok gWrapC2 ∧
    cWrapC2.group_id = gWrapC2.group_id ∧
    cWrapC2.epoch ≠ gWrapC2.epoch + 1 ∧
    (processCommit gWrapC2 (encodeCommitData cWrapC2)).2 = .ok () :=
  ⟨rfl, rfl, by decide, rfl⟩

/-! ## Claim C3 -/

/-- Claim C3 (amended): for every group whose `application_secret` is
non-empty (as holds for every group produced by `create`, `from_welcome` or
a successful mutating operation), every plaintext string and every member
sender, decrypting the encryption returns exactly the sender, the plaintext
and the group's epoch, the group being unchanged in between. -/
theorem encrypt_decrypt_roundtrip (g : MlsGroup) (text : List Nat) (sender : String)
    (hmem : sender ∈ g.members) (hutf : validUtf8 text = true)
    (hsec : g.application_secret ≠ []) :
    encryptMessage g text sender =
      some (.ok ⟨sender, g.epoch, xorStream g.application_secret 0 text⟩) ∧
    decryptMessage g ⟨sender, g.epoch, xorStream g.application_secret 0 text⟩ =
      some (.ok (sender, text, g.epoch)) := by
  constructor
  · simp [encryptMessage, hmem, hsec]
  · simp [decryptMessage, hmem, hsec, xorStream_involutive, hutf]

/-- Witness for C3: the one-byte plaintext `h` round-trips for the sole
member of a concrete group with a two-byte application secret. -/
theorem encrypt_decrypt_roundtrip_witness :
    encryptMessage ⟨[1], "t", 3, ["A"], [2], [5, 6]⟩ [104] "A" =
      some (.ok ⟨"A", 3, xorStream [5, 6] 0 [104]⟩) ∧
    decryptMessage ⟨[1], "t", 3, ["A"], [2], [5, 6]⟩ ⟨"A", 3, xorStream [5, 6] 0 [104]⟩ =
      some (.ok ("A", [104], 3)) :=
  encrypt_decrypt_roundtrip ⟨[1], "t", 3, ["A"], [2], [5, 6]⟩ [104] "A"
    (by decide) (by decide) (by decide)

/-- Counterexample to C3 as stated: a group with an empty
`application_secret` — importable through `import_state` — panics inside
`encrypt_message` (the `i % 0` keystream index) on any non-empty plaintext
from a member sender, so the round trip does not return a value at all. -/
theorem encrypt_decrypt_counterexample :
    importState jEmptyC3 = .ok gEmptyC3 ∧
    "A" ∈ gEmptyC3.members ∧
    validUtf8 [104] = true ∧
    encryptMessage gEmptyC3 [104] "A" = none :=
  ⟨rfl, by decide, by decide, rfl⟩

/-! ## Claim C4 -/

/-- Claim C4: exporting always succeeds, importing an exported state
reproduces the group in every field, and any import failure carries the
deserialization error kind. -/
theorem export_import_state :
    (∀ g : MlsGroup, WFGroup g → importState (exportState g) = .ok g) ∧
    (∀ j : Json, (∃ g, importState j = .ok g) ∨
      ∃ msg, importState j = .error (.SerializationError msg)) := by
  constructor
  · intro g h
    unfold importState
    rw [importStateAux_export g h]
  · exact importState_error_kind

/-- Witness for C4: the round trip at a concrete group, and a failing import
of a non-object document. -/
theorem export_import_state_witness :
    importState (exportState gBase) = .ok gBase ∧
    importState (.num 3) = .error (.SerializationError "invalid group state") :=
  ⟨export_import_state.1 gBase (by decide), rfl⟩

/-! ## Claim C5 -/

/-- Claim C5 (amended): `add_member` of an existing member fails with
`AlreadyMember` and changes nothing; otherwise it appends the identity,
sets the epoch to the wrapping `u64` successor `(epoch + 1) mod 2 ^ 64`,
advances the group secret once, recomputes the application secret, and
returns a Welcome carrying exactly the post-operation field values. -/
theorem addMember_spec (g : MlsGroup) (id : String) :
    (id ∈ g.members → addMember g id = (g, .error .AlreadyMember)) ∧
    (id ∉ g.members →
      (addMember g id).1.group_id = g.group_id ∧
      (addMember g id).1.name = g.name ∧
      (addMember g id).1.members = g.members ++ [id] ∧
      (addMember g id).1.epoch = (g.epoch + 1) % w64 ∧
      (addMember g id).1.group_secret = deriveNextSecret g.group_secret ∧
      (addMember g id).1.application_secret =
        deriveApplicationSecret (deriveNextSecret g.group_secret) ((g.epoch + 1) % w64) ∧
      (addMember g id).2 = .ok
        { group_id := (addMember g id).1.group_id
          group_name := (addMember g id).1.name
          epoch := (addMember g id).1.epoch
          members := (addMember g id).1.members
          group_secrets := (addMember g id).1.group_secret
          encrypted_group_info := [] }) := by
  constructor
  · intro hc
    simp [addMember, hc]
  · intro hc
    simp [addMember, hc]

/-- Witness for C5: adding a present member fails without change, adding a
fresh member yields the described state and Welcome. -/
theorem addMember_spec_witness :
    addMember gBase "A" = (gBase, .error .AlreadyMember) ∧
    (addMember gBase "B").1.members = gBase.members ++ ["B"] ∧
    (addMember gBase "B").1.epoch = (gBase.epoch + 1) % w64 ∧
    (addMember gBase "B").2 = .ok
      { group_id := (addMember gBase "B").1.group_id
        group_name := (addMember gBase "B").1.name
        epoch := (addMember gBase "B").1.epoch
        members := (addMember gBase "B").1.members
        group_secrets := (addMember gBase "B").1.group_secret
        encrypted_group_info := [] } :=
  ⟨(addMember_spec gBase "A").1 (by decide),
   ((addMember_spec gBase "B").2 (by decide)).2.2.1,
   ((addMember_spec gBase "B").2 (by decide)).2.2.2.1,
   ((addMember_spec gBase "B").2 (by decide)).2.2.2.2.2.2⟩

/-- Counterexample to C5 as stated: at the maximal `u64` epoch (importable
state), adding a fresh member succeeds but the epoch becomes 0 rather than
the predecessor plus one. -/
theorem addMember_counterexample :
    importState jWrapC5 = .ok gWrapC5 ∧
    "B" ∉ gWrapC5.members ∧
    (addMember gWrapC5 "B").2.isOk = true ∧
    (addMember gWrapC5 "B").1.epoch ≠ gWrapC5.epoch + 1 :=
  ⟨rfl, by decide, rfl, by decide⟩

/-- On success, the Welcome returned by `add_member` is the snapshot of the
post-operation group. -/
theorem addMember_ok_welcome (g : MlsGroup) (id : String) (hc : id ∉ g.members) :
    (addMember g id).2 = Except.ok
      { group_id := (addMember g id).1.group_id
        group_name := (addMember g id).1.name
        epoch := (addMember g id).1.epoch
        members := (addMember g id).1.members
        group_secrets := (addMember g id).1.group_secret
        encrypted_group_info := [] } := by
  simp [addMember, hc]

/-! ## Claim C6 -/

/-- Claim C6: `from_welcome` fails with `NotMember` when the joiner is
absent from the Welcome's member list; otherwise it adopts the Welcome's
fields verbatim and derives the application secret from them.  When the
Welcome comes out of another party's successful `add_member` of the joiner,
the joiner obtains a group equal to the issuer's post-add group in every
field — in particular the same epoch, members and application secret. -/
theorem fromWelcome_spec :
    (∀ (w : WelcomeData) (id : String), id ∉ w.members →
      fromWelcome w id = .error .NotMember) ∧
    (∀ (w : WelcomeData) (id : String), id ∈ w.members →
      fromWelcome w id = .ok ⟨w.group_id, w.group_name, w.epoch, w.members,
        w.group_secrets, deriveApplicationSecret w.group_secrets w.epoch⟩) ∧
    (∀ (g : MlsGroup) (id : String) (w : WelcomeData),
      (addMember g id).2 = .ok w → fromWelcome w id = .ok (addMember g id).1) := by
  refine ⟨?_, ?_, ?_⟩
  · intro w id h
    simp [fromWelcome, h]
  · intro w id h
    simp [fromWelcome, h]
  · intro g id w hok
    by_cases hc : id ∈ g.members
    · simp [addMember, hc] at hok
    · rw [addMember_ok_welcome g id hc] at hok
      injection hok with hw
      subst hw
      simp [fromWelcome, addMember, hc]

/-- The Welcome produced by a successful `add_member`, used to witness the
join path at concrete inputs. -/
def welcomeOfAdd (g : MlsGroup) (id : String) : WelcomeData :=
  match (addMember g id).2 with
  | .ok w => w
  | .error _ => ⟨[], "", 0, [], [], []⟩

/-- Witness for C6: a missing joiner is rejected, a listed joiner adopts the
Welcome, and joining from a real `add_member` Welcome reproduces the
issuer's post-add group. -/
theorem fromWelcome_spec_witness :
    fromWelcome ⟨[1], "t", 1, ["A"], [], []⟩ "Z" = .error .NotMember ∧
    fromWelcome ⟨[1], "t", 1, ["A"], [], []⟩ "A" =
      .ok ⟨[1], "t", 1, ["A"], [], deriveApplicationSecret [] 1⟩ ∧
    fromWelcome (welcomeOfAdd gBase "B") "B" = .ok (addMember gBase "B").1 :=
  ⟨fromWelcome_spec.1 ⟨[1], "t", 1, ["A"], [], []⟩ "Z" (by decide),
   fromWelcome_spec.2.1 ⟨[1], "t", 1, ["A"], [], []⟩ "A" (by decide),
   fromWelcome_spec.2.2 gBase "B" (welcomeOfAdd gBase "B") rfl⟩

/-! ## Claim C7 -/

/-- The §3 invariant: the stored application secret is the derivation of the
current `group_secret`/`epoch` pair. -/
def secretInvariant (g : MlsGroup) : Prop :=
  g.application_secret = deriveApplicationSecret g.group_secret g.epoch

instance (g : MlsGroup) : Decidable (secretInvariant g) := by
  unfold secretInvariant; infer_instance

/-- Claim C7 (amended): the application-secret invariant holds for groups
from `create` and `from_welcome` and is preserved by every mutating
operation; `import_state` copies the stored field without recomputation, so
an imported group satisfies it exactly when the serialized state did — in
particular `import_state (export_state g)` preserves it. -/
theorem secretInvariant_preserved :
    (∀ name creator gid gsec, secretInvariant (createGroup name creator gid gsec)) ∧
    (∀ (w : WelcomeData) (id : String) (g2 : MlsGroup),
      fromWelcome w id = .ok g2 → secretInvariant g2) ∧
    (∀ (g : MlsGroup) (id : String),
      secretInvariant g → secretInvariant (addMember g id).1) ∧
    (∀ (g : MlsGroup) (id : String),
      secretInvariant g → secretInvariant (removeMember g id).1) ∧
    (∀ g : MlsGroup, secretInvariant g → secretInvariant (updateKeys g).1) ∧
    (∀ (g : MlsGroup) (j : Json),
      secretInvariant g → secretInvariant (processCommit g j).1) ∧
    (∀ (g g2 : MlsGroup), WFGroup g → secretInvariant g →
      importState (exportState g) = .ok g2 → secretInvariant g2) := by
  refine ⟨?_, ?_, ?_, ?_, ?_, ?_, ?_⟩
  · intro name creator gid gsec
    rfl
  · intro w id g2 hok
    by_cases hc : id ∈ w.members
    · simp [fromWelcome, hc] at hok
      cases hok
      rfl
    · simp [fromWelcome, hc] at hok
  · intro g id h
    by_cases hc : id ∈ g.members
    · simpa [addMember, hc] using h
    · simp [addMember, hc, secretInvariant]
  · intro g id h
    cases hfi : g.members.findIdx? (fun m => m == id) with
    | none => simpa [removeMember, hfi] using h
    | some pos => simp [removeMember, hfi, secretInvariant]
  · intro g h
    simp [updateKeys, secretInvariant]
  · intro g j h
    cases hdc : decodeCommitData j with
    | none => simpa [processCommit, hdc] using h
    | some c =>
      by_cases h1 : c.group_id ≠ g.group_id
      · simpa [processCommit, processCommitData, hdc, h1] using h
      · by_cases h2 : c.epoch ≠ (g.epoch + 1) % w64
        · simpa [processCommit, processCommitData, hdc, h1, h2] using h
        · simp [processCommit, processCommitData, hdc, h1, h2, secretInvariant]
  · intro g g2 hwf h hok
    unfold importState at hok
    rw [importStateAux_export g hwf] at hok
    cases hok
    exact h

/-- Witness for C7 at concrete inputs: the invariant survives an add, a
remove of an absent member, and an export/import round trip. -/
theorem secretInvariant_preserved_witness :
    secretInvariant (addMember gBase "B").1 ∧
    secretInvariant (removeMember gBase "Z").1 ∧
    secretInvariant (updateKeys gBase).1 :=
  ⟨secretInvariant_preserved.2.2.1 gBase "B" (by decide),
   secretInvariant_preserved.2.2.2.1 gBase "Z" (by decide),
   secretInvariant_preserved.2.2.2.2.1 gBase (by decide)⟩

/-- Counterexample to C7 as stated: `import_state` accepts a serialized
state whose stored application secret is not the derivation of its
`group_secret`/`epoch` pair, producing a constructor-made group that
violates the invariant. -/
theorem secretInvariant_counterexample :
    importState jStaleC7 = .ok gStaleC7 ∧ ¬ secretInvariant gStaleC7 :=
  ⟨rfl, by decide⟩

/-! ## Claim C8 -/

/-- Claim C8 (amended): the members list of a `create` result has no
duplicates and every mutating operation preserves freedom from duplicates;
`from_welcome` and `import_state` copy the supplied member list verbatim,
so their result is duplicate-free exactly when the Welcome or serialized
state is — in particular `import_state (export_state g)` preserves it. -/
theorem members_nodup_preserved :
    (∀ name creator gid gsec, (createGroup name creator gid gsec).members.Nodup) ∧
    (∀ (w : WelcomeData) (id : String) (g2 : MlsGroup),
      fromWelcome w id = .ok g2 → w.members.Nodup → g2.members.Nodup) ∧
    (∀ (g : MlsGroup) (id : String),
      g.members.Nodup → (addMember g id).1.members.Nodup) ∧
    (∀ (g : MlsGroup) (id : String),
      g.members.Nodup → (removeMember g id).1.members.Nodup) ∧
    (∀ g : MlsGroup, g.members.Nodup → (updateKeys g).1.members.Nodup) ∧
    (∀ (g : MlsGroup) (j : Json),
      g.members.Nodup → (processCommit g j).1.members.Nodup) ∧
    (∀ (g g2 : MlsGroup), WFGroup g → g.members.Nodup →
      importState (exportState g) = .ok g2 → g2.members.Nodup) := by
  refine ⟨?_, ?_, ?_, ?_, ?_, ?_, ?_⟩
  · intro name creator gid gsec
    simp [createGroup]
  · intro w id g2 hok hnd
    by_cases hc : id ∈ w.members
    · simp [fromWelcome, hc] at hok
      cases hok
      exact hnd
    · simp [fromWelcome, hc] at hok
  · intro g id hnd
    by_cases hc : id ∈ g.members
    · simpa [addMember, hc] using hnd
    · simp [addMember, hc, List.nodup_append, hnd, hc]
  · intro g id hnd
    cases hfi : g.members.findIdx? (fun m => m == id) with
    | none => simpa [removeMember, hfi] using hnd
    | some pos =>
      simp only [removeMember, hfi]
      exact List.Nodup.sublist (List.eraseIdx_sublist _ _) hnd
  · intro g hnd
    simpa [updateKeys] using hnd
  · intro g j hnd
    cases hdc : decodeCommitData j with
    | none => simpa [processCommit, hdc] using hnd
    | some c =>
      by_cases h1 : c.group_id ≠ g.group_id
      · simpa [processCommit, processCommitData, hdc, h1] using hnd
      · by_cases h2 : c.epoch ≠ (g.epoch + 1) % w64
        · simpa [processCommit, processCommitData, hdc, h1, h2] using hnd
        · simp only [processCommit, hdc]
          unfold processCommitData
          rw [if_neg h1, if_neg h2]
          exact nodup_addAll _ _ (nodup_removeAll _ _ hnd)
  · intro g g2 hwf hnd hok
    unfold importState at hok
    rw [importStateAux_export g hwf] at hok
    cases hok
    exact hnd

/-- Witness for C8 at concrete inputs: duplicate-freedom survives an add,
a remove and a next-epoch commit application. -/
theorem members_nodup_preserved_witness :
    (addMember gBase "B").1.members.Nodup ∧
    (removeMember gBase "A").1.members.Nodup ∧
    (processCommit gBase (encodeCommitData ⟨[1, 2], 1, [], ["B"]⟩)).1.members.Nodup :=
  ⟨members_nodup_preserved.2.2.1 gBase "B" (by decide),
   members_nodup_preserved.2.2.2.1 gBase "A" (by decide),
   members_nodup_preserved.2.2.2.2.2.1 gBase (encodeCommitData ⟨[1, 2], 1, [], ["B"]⟩)
     (by decide)⟩

/-- Counterexample to C8 as stated: `from_welcome` accepts a Welcome listing
the same identity twice and copies the duplicate list verbatim into the
constructed group. -/
theorem members_nodup_counterexample :
    (fromWelcome wDupC8 "A").toOption.map MlsGroup.members = some ["A", "A"] ∧
    ¬ (["A", "A"] : List String).Nodup :=
  ⟨rfl, by decide⟩

/-! ## Claim C10 -/

/-- Claim C10: the keystream is indexed `i % application_secret.len()`;
whenever the application secret is non-empty both messaging operations are
total (never reach the panicking zero modulus); the secret derivation always
yields 32 bytes, so every group made by `create`, `from_welcome` or a
successful mutating operation has a non-empty application secret; and the
precondition is not vacuous — `import_state` accepts a state with an empty
application secret, on which `encrypt_message` of a non-empty plaintext
panics. -/
theorem keystream_modulus_safety :
    (∀ (secret : List Nat) (i b : Nat) (rest : List Nat),
      xorStream secret i (b :: rest) =
        (b ^^^ secret.getD (i % secret.length) 0) :: xorStream secret (i + 1) rest) ∧
    (∀ (g : MlsGroup) (pt : List Nat) (sender : String),
      g.application_secret ≠ [] → encryptMessage g pt sender ≠ none) ∧
    (∀ (g : MlsGroup) (m : EncryptedMessage),
      g.application_secret ≠ [] → decryptMessage g m ≠ none) ∧
    (∀ name creator gid gsec,
      (createGroup name creator gid gsec).application_secret.length = 32) ∧
    (∀ (w : WelcomeData) (id : String) (g2 : MlsGroup),
      fromWelcome w id = .ok g2 → g2.application_secret.length = 32) ∧
    (∀ (g : MlsGroup) (id : String),
      (addMember g id).2.isOk = true → (addMember g id).1.application_secret.length = 32) ∧
    (∀ (g : MlsGroup) (id : String),
      (removeMember g id).2.isOk = true →
        (removeMember g id).1.application_secret.length = 32) ∧
    (∀ g : MlsGroup, (updateKeys g).1.application_secret.length = 32) ∧
    (∀ (g : MlsGroup) (j : Json),
      (processCommit g j).2.isOk = true →
        (processCommit g j).1.application_secret.length = 32) ∧
    (importState jEmptyC10 = .ok gEmptyC10 ∧ gEmptyC10.application_secret = [] ∧
      encryptMessage gEmptyC10 [104] "A" = none) := by
  refine ⟨?_, ?_, ?_, ?_, ?_, ?_, ?_, ?_, ?_, rfl, rfl, rfl⟩
  · intro secret i b rest
    rfl
  · intro g pt sender h
    by_cases hc : sender ∈ g.members
    · simp [encryptMessage, hc, h]
    · simp [encryptMessage, hc]
  · intro g m h
    by_cases hc : m.sender_public_key ∈ g.members
    · by_cases hv : validUtf8 (xorStream g.application_secret 0 m.ciphertext)
      · simp [decryptMessage, hc, h, hv]
      · simp [decryptMessage, hc, h, hv]
    · simp [decryptMessage, hc]
  · intro name creator gid gsec
    exact deriveApplicationSecret_length _ _
  · intro w id g2 hok
    by_cases hc : id ∈ w.members
    · simp [fromWelcome, hc] at hok
      cases hok
      exact deriveApplicationSecret_length _ _
    · simp [fromWelcome, hc] at hok
  · intro g id h
    by_cases hc : id ∈ g.members
    · simp [addMember, hc, Except.isOk, Except.toBool] at h
    · simp [addMember, hc, deriveApplicationSecret_length]
  · intro g id h
    cases hfi : g.members.findIdx? (fun m => m == id) with
    | none => simp [removeMember, hfi, Except.isOk, Except.toBool] at h
    | some pos => simp [removeMember, hfi, deriveApplicationSecret_length]
  · intro g
    simp [updateKeys, deriveApplicationSecret_length]
  · intro g j h
    cases hdc : decodeCommitData j with
    | none => simp [processCommit, hdc, Except.isOk, Except.toBool] at h
    | some c =>
      by_cases h1 : c.group_id ≠ g.group_id
      · simp [processCommit, processCommitData, hdc, h1, Except.isOk, Except.toBool] at h
      · by_cases h2 : c.epoch ≠ (g.epoch + 1) % w64
        · simp [processCommit, processCommitData, hdc, h1, h2, Except.isOk,
            Except.toBool] at h
        · simp [processCommit, processCommitData, hdc, h1, h2,
            deriveApplicationSecret_length]

/-- Witness for C10 at concrete inputs: encryption and decryption return a
value for a group with a non-empty secret, and the post-add secret has 32
bytes. -/
theorem keystream_modulus_safety_witness :
    encryptMessage gBase [104] "A" ≠ none ∧
    decryptMessage gBase ⟨"A", 0, [9]⟩ ≠ none ∧
    (addMember gBase "B").1.application_secret.length = 32 :=
  ⟨keystream_modulus_safety.2.1 gBase [104] "A" (by decide),
   keystream_modulus_safety.2.2.1 gBase ⟨"A", 0, [9]⟩ (by decide),
   keystream_modulus_safety.2.2.2.2.2.1 gBase "B" (by decide)⟩

end OpenChat
